import Mathlib

/-!
Verification development for the `pdf_helper_learning` document assembly
pipeline.  The Rust sources are shallowly embedded: strings are modelled as
`List Char` (Rust byte indices are tracked explicitly via `Char.utf8Size`,
and positions reported in errors are byte offsets exactly as in the source),
`Vec` becomes `List`, `Option`/`Result` become `Option`/`Except`, the
`lopdf` object graph becomes a first-order assoc-list graph, and the external
`genpdf` layout engine is abstracted as a stream of page-turn / marker-render
events delivered to the page tracker during one layout pass.
-/

namespace PdfSpec

/-! ## richtext.rs : spans, styles, parse errors -/

/-- Embedding of `genpdf::style::Color` (only the `Rgb` variant is ever
constructed by this crate; the unused `Greyscale`/`Cmyk` variants are
omitted).  The three components are `u8` values, represented as `Nat`
(always below 256 by construction: each comes from two hex digits). -/
inductive Color where
  | Rgb (r g b : Nat)
deriving DecidableEq, Repr

/-- Embedding of `richtext.rs::Span`: a text fragment with inline style
attributes.  `text` is the Rust `String` as a list of characters. -/
structure Span where
  text : List Char
  bold : Bool
  italic : Bool
  color : Option Color
  underline : Bool
deriving DecidableEq, Repr

/-- Rust `Span::new`: the provided text with no styles applied. -/
def Span.new (text : List Char) : Span :=
  { text := text, bold := false, italic := false, color := none, underline := false }

/-- Embedding of `richtext.rs::ParseError` (byte index + message). -/
structure ParseError where
  index : Nat
  message : String
deriving DecidableEq, Repr

/-- Embedding of `richtext.rs::StyleState`. -/
structure StyleState where
  bold : Bool
  italic : Bool
  color : Option Color
  underline : Bool
deriving DecidableEq, Repr

/-- Rust `StyleState::default()`. -/
def StyleState.initial : StyleState :=
  { bold := false, italic := false, color := none, underline := false }

/-- Rust `StyleState::to_span`. -/
def StyleState.to_span (s : StyleState) (text : List Char) : Span :=
  { text := text, bold := s.bold, italic := s.italic, color := s.color,
    underline := s.underline }

/-- Embedding of `richtext.rs::Marker`. -/
inductive Marker where
  | Bold
  | Italic
  | Color
deriving DecidableEq, Repr

/-- Rust `Marker::closing_token` (as a character list; all tokens are ASCII, so
the byte length equals the list length). -/
def Marker.closing_token : Marker → List Char
  | .Bold => ['*', '*']
  | .Italic => ['*']
  | .Color => ['}']

/-- Rust `Marker::description`. -/
def Marker.description : Marker → String
  | .Bold => "bold span"
  | .Italic => "italic span"
  | .Color => "color span"

/-- Rust `char::is_ascii_hexdigit`. -/
def isAsciiHexDigit (c : Char) : Bool :=
  c.isDigit || ('a' ≤ c && c ≤ 'f') || ('A' ≤ c && c ≤ 'F')

/-- Numeric value of an ASCII hex digit (what `u8::from_str_radix` computes
digit-wise; junk value 0 outside the hex range, which the parser never uses
because digits are validated first). -/
def hexDigitVal (c : Char) : Nat :=
  if c.isDigit then c.toNat - 48
  else if 'a' ≤ c && c ≤ 'f' then c.toNat - 87
  else if 'A' ≤ c && c ≤ 'F' then c.toNat - 55
  else 0

/-- The `"[color="` opener. -/
def colorOpen : List Char := ['[', 'c', 'o', 'l', 'o', 'r', '=']

/-- Embedding of `richtext.rs::parse_color_directive`.  `rem` is the
remaining input, which starts with `[color=` when this is called; `idx` is
the byte offset of that `[` in the whole input.  On success returns the
color and the byte offset just after the opening `{` (the directive is the
16 ASCII characters `[color=#RRGGBB]{`).  The Rust code measures the
six-digit window in bytes; this embedding measures it in characters, which
agrees on all ASCII inputs (on non-ASCII hex regions the Rust code may
panic on a char boundary; no claim concerns such inputs). -/
def parse_color_directive (rem : List Char) (idx : Nat) :
    Except ParseError (Color × Nat) :=
  match rem.drop 7 with
  | '#' :: d1 :: d2 :: d3 :: d4 :: d5 :: d6 :: v =>
    if isAsciiHexDigit d1 && isAsciiHexDigit d2 && isAsciiHexDigit d3 &&
        isAsciiHexDigit d4 && isAsciiHexDigit d5 && isAsciiHexDigit d6 then
      match v with
      | ']' :: '{' :: _ =>
        .ok (Color.Rgb (hexDigitVal d1 * 16 + hexDigitVal d2)
              (hexDigitVal d3 * 16 + hexDigitVal d4)
              (hexDigitVal d5 * 16 + hexDigitVal d6), idx + 16)
      | ']' :: _ =>
        .error ⟨idx + 15, "expected `\x7b` to start the colored text"⟩
      | _ =>
        .error ⟨idx + 14, "expected `]` to close color directive"⟩
    else
      .error ⟨idx + 8, "invalid RGB specification; use hexadecimal digits only"⟩
  | '#' :: _ =>
    .error ⟨idx + 8, "incomplete color specification; expected 6 hexadecimal digits"⟩
  | _ =>
    .error ⟨idx + 7, "expected `#` followed by a hexadecimal RGB value"⟩

/-- Embedding of `richtext.rs::flush_buffer`: pushes the buffered text as a
span with the current style, unless the buffer is empty. -/
def flush_buffer (buffer : List Char) (spans : List Span) (state : StyleState) :
    List Span :=
  if buffer.isEmpty then spans else spans ++ [state.to_span buffer]

/-- Does the current closing marker's token start here?  (The `if let
Some(marker) = closing_marker { if input[index..].starts_with(...) }`
test at the top of the loop in `parse_inner`.) -/
def closingFires (closing : Option Marker) (rem : List Char) : Bool :=
  match closing with
  | none => false
  | some m => m.closing_token.isPrefixOf rem

/-- Embedding of `richtext.rs::parse_inner`.  The Rust function loops over
the input with an index and recurses into nested scopes; here the loop is
the recursion on `rem` (the remaining input) and `buffer`/`spans` are its
accumulators.  `idx` is the byte offset of `rem` in the whole input.  On
success it returns the spans produced, the byte offset just after the
consumed region (after the closing token, when there is one) and the
remaining input, exactly mirroring the `(Vec<Span>, usize)` result.
`fuel` bounds the recursion depth; `2 * rem.length + 1` always suffices
(`parse_inner_isSome`), so the `none` result never escapes through
`parse_markup`. -/
def parse_inner (fuel : Nat) (rem : List Char) (idx : Nat) (state : StyleState)
    (closing : Option Marker) (buffer : List Char) (spans : List Span) :
    Option (Except ParseError (List Span × Nat × List Char)) :=
  match fuel with
  | 0 => none
  | fuel + 1 =>
    match rem with
    | [] =>
      match closing with
      | some m => some (.error ⟨idx, "unterminated " ++ m.description⟩)
      | none => some (.ok (flush_buffer buffer spans state, idx, []))
    | c :: t =>
      if h : closingFires closing (c :: t) then
        match closing, h with
        | some m, _ =>
          some (.ok (flush_buffer buffer spans state,
            idx + m.closing_token.length, (c :: t).drop m.closing_token.length))
      else if ['*', '*'].isPrefixOf (c :: t) then
        match parse_inner fuel ((c :: t).drop 2) (idx + 2)
            { state with bold := true } (some Marker.Bold) [] [] with
        | none => none
        | some (.error e) => some (.error e)
        | some (.ok (nested, idx2, rem2)) =>
          parse_inner fuel rem2 idx2 state closing []
            (flush_buffer buffer spans state ++ nested)
      else if ['*'].isPrefixOf (c :: t) then
        match parse_inner fuel ((c :: t).drop 1) (idx + 1)
            { state with italic := true } (some Marker.Italic) [] [] with
        | none => none
        | some (.error e) => some (.error e)
        | some (.ok (nested, idx2, rem2)) =>
          parse_inner fuel rem2 idx2 state closing []
            (flush_buffer buffer spans state ++ nested)
      else if colorOpen.isPrefixOf (c :: t) then
        match parse_color_directive (c :: t) idx with
        | .error e => some (.error e)
        | .ok (color, idxAfter) =>
          match parse_inner fuel ((c :: t).drop 16) idxAfter
              { state with color := some color } (some Marker.Color) [] [] with
          | none => none
          | some (.error e) => some (.error e)
          | some (.ok (nested, idx2, rem2)) =>
            parse_inner fuel rem2 idx2 state closing []
              (flush_buffer buffer spans state ++ nested)
      else if c = '}' then
        some (.error ⟨idx,
          "unexpected closing token `\x7d` without matching opening `[color=...]`"⟩)
      else if c = ']' then
        some (.error ⟨idx, "unexpected closing token `]`"⟩)
      else if c = '[' then
        some (.error ⟨idx, "unsupported directive; expected `[color=#RRGGBB]\x7b...\x7d`"⟩)
      else
        parse_inner fuel t (idx + c.utf8Size) state closing (buffer ++ [c]) spans

/-- Embedding of `richtext.rs::parse_markup`. -/
def parse_markup (input : List Char) : Except ParseError (List Span) :=
  match parse_inner (2 * input.length + 1) input 0 StyleState.initial none [] [] with
  | some (.ok (spans, _, _)) => .ok spans
  | some (.error e) => .error e
  | none => .error ⟨0, "internal: fuel exhausted"⟩

/-- Concatenation of the `text()` of a list of spans. -/
def concatTexts (spans : List Span) : List Char :=
  spans.foldr (fun s acc => s.text ++ acc) []

/-- Total UTF-8 byte length of a character list (the Rust `str::len`). -/
def utf8Len (s : List Char) : Nat :=
  s.foldr (fun c n => c.utf8Size + n) 0

/-- A character that the markup grammar treats as (part of) a token:
`*` opens/closes bold/italic scopes, `[` starts a directive, and `]`/`}`
are closing tokens.  A string none of whose characters are markup
characters is parsed as plain text. -/
def isMarkupChar (c : Char) : Bool :=
  c = '*' || c = '[' || c = ']' || c = '}'

/-- Modelled from the spec: the input with the markup delimiters removed
(every `*`, every scope-closing `}`, and every well-formed
`[color=#RRGGBB]{` directive opener).  This is the spec-side description of
what the concatenated span texts reproduce; it is compared against the
parser in the theorem for C3. -/
def stripMarkup : List Char → List Char
  | [] => []
  | '*' :: t => stripMarkup t
  | '}' :: t => stripMarkup t
  | '[' :: 'c' :: 'o' :: 'l' :: 'o' :: 'r' :: '=' :: '#' ::
      d1 :: d2 :: d3 :: d4 :: d5 :: d6 :: ']' :: '{' :: t =>
    if isAsciiHexDigit d1 && isAsciiHexDigit d2 && isAsciiHexDigit d3 &&
        isAsciiHexDigit d4 && isAsciiHexDigit d5 && isAsciiHexDigit d6 then
      stripMarkup t
    else
      '[' :: stripMarkup ('c' :: 'o' :: 'l' :: 'o' :: 'r' :: '=' :: '#' ::
        d1 :: d2 :: d3 :: d4 :: d5 :: d6 :: ']' :: '{' :: t)
  | '[' :: t => '[' :: stripMarkup t
  | c :: t => c :: stripMarkup t

/-! ## model.rs : the content model -/

/-- Embedding of `model.rs::HorizontalAlignment`. -/
inductive HorizontalAlignment where
  | Left
  | Center
  | Right
  | Justified
deriving DecidableEq, Repr

/-- Embedding of `model.rs::RichParagraph`. -/
structure RichParagraph where
  spans : List Span
  alignment : HorizontalAlignment
deriving DecidableEq, Repr

/-- Embedding of `model.rs::ImageSource`. -/
inductive ImageSource where
  | Bytes (bytes : List Nat)
  | Path (path : String)
deriving DecidableEq, Repr

/-- Embedding of `model.rs::ImageBlock`.  `width_mm` is an `f64` in Rust;
no claim depends on its arithmetic, so it is carried opaquely as `Float`. -/
structure ImageBlock where
  source : ImageSource
  caption : Option RichParagraph
  alignment : HorizontalAlignment
  width_mm : Option Float

/-- Embedding of `model.rs::Block`. -/
inductive Block where
  | Paragraph (p : RichParagraph)
  | Image (i : ImageBlock)
  | PageBreak

/-- Whether a block is the `PageBreak` variant. -/
def Block.isPageBreak : Block → Bool
  | .PageBreak => true
  | _ => false

/-- Embedding of `model.rs::Section`. -/
structure Section where
  identifier : Option String
  title : String
  blocks : List Block

/-- Embedding of `model.rs::SectionBuilder`. -/
structure SectionBuilder where
  identifier : Option String
  title : String
  blocks : List Block
  start_on_new_page : Bool

/-- Embedding of `SectionBuilder::build`: injects a leading page break when
requested, unless the first block already is a page break. -/
def SectionBuilder.build (b : SectionBuilder) : Section :=
  let blocks :=
    if b.start_on_new_page then
      match b.blocks.head? with
      | some .PageBreak => b.blocks
      | _ => Block.PageBreak :: b.blocks
    else b.blocks
  { identifier := b.identifier, title := b.title, blocks := blocks }

/-- Computes `true` iff the list contains no two adjacent `PageBreak` blocks. -/
def noConsecPageBreaks : List Block → Bool
  | a :: b :: t => !(a.isPageBreak && b.isPageBreak) && noConsecPageBreaks (b :: t)
  | _ => true

/-! ## builder.rs : page tracking and the render coordinator

The `genpdf` layout engine is external (out of scope per the spec); what it
does to the tracker during one layout pass is abstracted as a list of
events: each page decoration (`ConfiguredPageDecorator::decorate_page`)
advances the decorator's page counter and forwards it via
`PageTracker::set_current_page`, and each `SectionMarker::render` call
invokes `PageTracker::mark_section` with its section index. -/

/-- Embedding of `builder.rs::PageTracker`. -/
structure PageTracker where
  current_page : Nat
  section_pages : List (Option Nat)
deriving DecidableEq, Repr

/-- Rust `PageTracker::new`. -/
def PageTracker.new (section_count : Nat) : PageTracker :=
  { current_page := 0, section_pages := List.replicate section_count none }

/-- Rust `PageTracker::set_current_page`. -/
def PageTracker.set_current_page (t : PageTracker) (page : Nat) : PageTracker :=
  { t with current_page := page }

/-- Rust `PageTracker::mark_section`: records the current page into slot `index`
only if the slot exists and is still unset (first write wins). -/
def PageTracker.mark_section (t : PageTracker) (index : Nat) : PageTracker :=
  match t.section_pages.get? index with
  | some none =>
    { t with section_pages := t.section_pages.set index (some t.current_page) }
  | _ => t

/-- One observable tracker interaction during a layout pass. -/
inductive RenderEvent where
  | pageTurn
  | markSection (index : Nat)
deriving DecidableEq, Repr

/-- The per-pass state: the decorator's own page counter (`ConfiguredPageDecorator.page`)
plus the shared tracker. -/
structure PassState where
  decorator_page : Nat
  tracker : PageTracker
deriving DecidableEq, Repr

/-- Effect of one event: `decorate_page` does `self.page += 1` then
`set_current_page(self.page)`; a marker render calls `mark_section`. -/
def stepEvent (s : PassState) : RenderEvent → PassState
  | .pageTurn =>
    { decorator_page := s.decorator_page + 1,
      tracker := s.tracker.set_current_page (s.decorator_page + 1) }
  | .markSection index =>
    { s with tracker := s.tracker.mark_section index }

/-- Runs one layout pass over an event stream. -/
def runPass (s : PassState) (events : List RenderEvent) : PassState :=
  events.foldl stepEvent s

/-- The fresh pass state a render pass starts from (a new decorator and a
new tracker sized to the section count). -/
def initialPass (section_count : Nat) : PassState :=
  { decorator_page := 0, tracker := PageTracker.new section_count }

/-- Embedding of `builder.rs::PdfBuilder` restricted to the fields that
drive `render`'s pass/tracking control flow (`include_toc`,
`collect_section_pages`, `sections`).  The remaining fields (paper size,
margins, header/footer, hyphenation, cover, headings, alignment) only shape
the rendered bytes, which are opaque here. -/
structure PdfBuilder where
  include_toc : Bool
  collect_section_pages : Bool
  sections : List Section

/-- Result of `PdfBuilder::render` in the abstract model: the number of
full layout passes performed (`render_internal` invocations), the TOC page
numbers handed to the final pass (`None` when no TOC is printed), and the
`section_start_pages` of the returned `PdfRenderResult`. -/
structure RenderResultM where
  passes : Nat
  toc_pages : Option (List (Option Nat))
  section_start_pages : List (Option Nat)

/-- Embedding of `PdfBuilder::render`.  `discoveryEvents` / `finalEvents`
abstract what the layout engine does to the installed tracker during the
discovery and final passes.  Mirrors the source: `need_toc` requires a
requested TOC and at least one section; `need_tracking` is
`collect_section_pages || need_toc`; when tracking is needed a discovery
pass runs first and its recorded pages feed the TOC; the final tracker is
installed iff `need_tracking && section_count > 0` (the source's `else if
collect_section_pages && section_count > 0` branch is unreachable because
`collect_section_pages` implies `need_tracking`), and `section_start_pages`
falls back to `vec![None; section_count]` when no final tracker exists. -/
def PdfBuilder.render (b : PdfBuilder)
    (discoveryEvents finalEvents : List RenderEvent) : RenderResultM :=
  let section_count := b.sections.length
  let need_toc := b.include_toc && decide (0 < section_count)
  let need_tracking := b.collect_section_pages || need_toc
  let recorded_pages :=
    if need_tracking then
      (runPass (initialPass section_count) discoveryEvents).tracker.section_pages
    else List.replicate section_count none
  let final_tracker_installed := need_tracking && decide (0 < section_count)
  let section_start_pages :=
    if final_tracker_installed then
      (runPass (initialPass section_count) finalEvents).tracker.section_pages
    else List.replicate section_count none
  { passes := (if need_tracking then 1 else 0) + 1,
    toc_pages := if need_toc then some recorded_pages else none,
    section_start_pages := section_start_pages }

/-! ## bookmarks.rs : the outline graph builder

The `lopdf` object graph is embedded first-order: object identifiers are
`(id, generation)` pairs, dictionaries are assoc lists with
replace-or-append `set`, the object store is an assoc list with
replace-or-append `insert` (the lookup/insert semantics of `BTreeMap`),
and `Document::get_pages()` is carried as the page-number → page-object
assoc list the loaded artifact encodes. -/

/-- Rust `lopdf::ObjectId` = `(u32, u16)`. -/
def ObjectId := Nat × Nat
deriving DecidableEq, Repr

/-- The `lopdf::Object` variants this crate constructs or inspects. -/
inductive Object where
  | Null
  | Integer (i : Int)
  | Name (s : String)
  | StringLit (s : String)
  | Reference (id : ObjectId)
  | Array (xs : List Object)
  | Dictionary (d : List (String × Object))

/-- Dictionary lookup (first binding wins; keys are kept unique by `dictSet`). -/
def dictGet : List (String × Object) → String → Option Object
  | [], _ => none
  | p :: rest, k => if p.1 = k then some p.2 else dictGet rest k

/-- Rust `lopdf::Dictionary::set`: replace the existing binding or append. -/
def dictSet : List (String × Object) → String → Object → List (String × Object)
  | [], k, v => [(k, v)]
  | p :: rest, k, v => if p.1 = k then (k, v) :: rest else p :: dictSet rest k v

/-- Object-store lookup (`document.objects.get`). -/
def objGet : List (ObjectId × Object) → ObjectId → Option Object
  | [], _ => none
  | p :: rest, id => if p.1 = id then some p.2 else objGet rest id

/-- Object-store insert (`document.objects.insert`, `BTreeMap` semantics). -/
def objInsert : List (ObjectId × Object) → ObjectId → Object → List (ObjectId × Object)
  | [], id, v => [(id, v)]
  | p :: rest, id, v => if p.1 = id then (id, v) :: rest else p :: objInsert rest id v

/-- Page-map lookup (`pages.get(&page_number_u32)`). -/
def pageLookup : List (Nat × ObjectId) → Nat → Option ObjectId
  | [], _ => none
  | p :: rest, n => if p.1 = n then some p.2 else pageLookup rest n

/-- The loaded `lopdf::Document` as far as this crate touches it:
the id allocator (`max_id`), the object store, the trailer dictionary and
the page map that `get_pages()` reads off the page tree. -/
structure Document where
  max_id : Nat
  objects : List (ObjectId × Object)
  trailer : List (String × Object)
  pages : List (Nat × ObjectId)

/-- Rust `Document::new_object_id`: bumps `max_id` and returns `(max_id, 0)`. -/
def newObjectId (doc : Document) : Document × ObjectId :=
  ({ doc with max_id := doc.max_id + 1 }, (doc.max_id + 1, 0))

/-- Embedding of `bookmarks.rs::BookmarkError` (the `Parse` variant is not
modelled: byte-level artifact parsing is out of scope and `load_mem` is
abstracted by taking the already-loaded `Document` as input). -/
inductive BookmarkError where
  | MissingCatalog
  | InvalidCatalog
  | MissingPage (section_index : Nat) (page_number : Nat)
deriving DecidableEq, Repr

/-- Embedding of `bookmarks.rs::OutlineEntry`. -/
structure OutlineEntry where
  object_id : ObjectId
  page_ref : ObjectId
  title : String
  name : Option String
deriving DecidableEq, Repr

/-- The loop body of `collect_outline_entries`, recursing over the
enumerated `sections.iter().zip(section_pages.iter())` pairs: sections with
no recorded page are skipped (the index still advances), a recorded page is
resolved through the page map after the `as u32` cast (`% 2^32`), and a
failed resolution aborts with `MissingPage` carrying the section index and
the uncast page number. -/
def collectLoop (doc : Document) (index : Nat) :
    List (Section × Option Nat) → Except BookmarkError (Document × List OutlineEntry)
  | [] => .ok (doc, [])
  | (_, none) :: rest => collectLoop doc (index + 1) rest
  | (sec, some page_number) :: rest =>
    match pageLookup doc.pages (page_number % 4294967296) with
    | none => .error (.MissingPage index page_number)
    | some page_ref =>
      let (doc', object_id) := newObjectId doc
      match collectLoop doc' (index + 1) rest with
      | .error e => .error e
      | .ok (doc'', entries) =>
        let entry : OutlineEntry :=
          { object_id := object_id, page_ref := page_ref,
            title := sec.title, name := sec.identifier }
        .ok (doc'', entry :: entries)

/-- Embedding of `bookmarks.rs::collect_outline_entries`. -/
def collect_outline_entries (doc : Document) (sections : List Section)
    (section_pages : List (Option Nat)) :
    Except BookmarkError (Document × List OutlineEntry) :=
  collectLoop doc 0 (sections.zip section_pages)

/-- The dictionary built for one outline entry in `link_outline_entries`:
Title, Dest `[page /Fit]`, Parent, optional NM, then Prev when the entry
has a predecessor and Next when it has a successor. -/
def mkEntryDict (outlines_id : ObjectId) (prev next : Option ObjectId)
    (e : OutlineEntry) : List (String × Object) :=
  let d := dictSet [] "Title" (.StringLit e.title)
  let d := dictSet d "Dest" (.Array [.Reference e.page_ref, .Name "Fit"])
  let d := dictSet d "Parent" (.Reference outlines_id)
  let d := match e.name with
    | some n => dictSet d "NM" (.StringLit n)
    | none => d
  let d := match prev with
    | some p => dictSet d "Prev" (.Reference p)
    | none => d
  let d := match next with
    | some n => dictSet d "Next" (.Reference n)
    | none => d
  d

/-- The indexed loop of `link_outline_entries`: walks the entries carrying
the predecessor's id, peeking at the successor's id, and inserts each
entry's dictionary object. -/
def linkLoop (outlines_id : ObjectId) (prev : Option ObjectId) (doc : Document) :
    List OutlineEntry → Document
  | [] => doc
  | [e] =>
    let objects :=
      objInsert doc.objects e.object_id (.Dictionary (mkEntryDict outlines_id prev none e))
    { doc with objects := objects }
  | e :: e2 :: rest =>
    let objects :=
      objInsert doc.objects e.object_id
        (.Dictionary (mkEntryDict outlines_id prev (some e2.object_id) e))
    linkLoop outlines_id (some e.object_id) { doc with objects := objects } (e2 :: rest)

/-- Embedding of `bookmarks.rs::link_outline_entries`. -/
def link_outline_entries (outlines_id : ObjectId) (doc : Document)
    (entries : List OutlineEntry) : Document :=
  linkLoop outlines_id none doc entries

/-- Embedding of `bookmarks.rs::insert_outlines_root`: resolves the trailer's
Root reference to the catalog dictionary (failing with `MissingCatalog` /
`InvalidCatalog` before any mutation), then inserts the outline root
(`Type`, `Count`, `First`/`Last` when entries exist) and points the
catalog's `Outlines` key at it. -/
def insert_outlines_root (outlines_id : ObjectId) (doc : Document)
    (entries : List OutlineEntry) : Except BookmarkError Document :=
  match dictGet doc.trailer "Root" with
  | some (.Reference catalog_id) =>
    match objGet doc.objects catalog_id with
    | some (.Dictionary catalog) =>
      let d := dictSet [] "Type" (.Name "Outlines")
      let d := dictSet d "Count" (.Integer entries.length)
      let d := match entries.head? with
        | some first => dictSet d "First" (.Reference first.object_id)
        | none => d
      let d := match entries.getLast? with
        | some last => dictSet d "Last" (.Reference last.object_id)
        | none => d
      let objects := objInsert doc.objects outlines_id (.Dictionary d)
      let catalog' := dictSet catalog "Outlines" (.Reference outlines_id)
      .ok { doc with objects := objInsert objects catalog_id (.Dictionary catalog') }
    | some _ => .error .InvalidCatalog
    | none => .error .MissingCatalog
  | some _ => .error .MissingCatalog
  | none => .error .MissingCatalog

/-- Embedding of `bookmarks.rs::apply_section_bookmarks`.  `.ok none`
models the early return of the original bytes unchanged (no resolvable
entry); `.ok (some doc)` models the re-serialized mutated graph; `.error`
models a failure, in which case nothing is serialized and the caller keeps
the original bytes. -/
def apply_section_bookmarks (doc : Document) (sections : List Section)
    (section_pages : List (Option Nat)) :
    Except BookmarkError (Option Document) :=
  match collect_outline_entries doc sections section_pages with
  | .error e => .error e
  | .ok (doc1, entries) =>
    if entries.isEmpty then .ok none
    else
      let (doc2, outlines_id) := newObjectId doc1
      let doc3 := link_outline_entries outlines_id doc2 entries
      match insert_outlines_root outlines_id doc3 entries with
      | .error e => .error e
      | .ok doc4 => .ok (some doc4)

/-! ## Theorems -/

/-! ### C6 : SectionBuilder and consecutive page breaks -/

/-- C6 (counterexample): the claim "the built Section never contains two
consecutive PageBreak blocks" is false as stated — a caller that supplies
two leading `PageBreak` blocks to a builder configured to start on a new
page gets them back verbatim (the first block already is a `PageBreak`, so
nothing is inserted), and the built section has two adjacent breaks. -/
theorem sectionBuilder_two_breaks_counterexample :
    (SectionBuilder.build
        ⟨none, "S", [Block.PageBreak, Block.PageBreak], true⟩).blocks =
      [Block.PageBreak, Block.PageBreak] ∧
    noConsecPageBreaks
      (SectionBuilder.build
        ⟨none, "S", [Block.PageBreak, Block.PageBreak], true⟩).blocks = false :=
  ⟨rfl, rfl⟩

/-- C6 (amended): a `SectionBuilder` configured to start on a new page
never *introduces* an adjacent pair of `PageBreak` blocks: a `PageBreak` is
inserted as the section's first block unless the first supplied block
already is a `PageBreak`, so whenever the supplied block list has no two
consecutive `PageBreak`s, neither does the built section. -/
theorem sectionBuilder_build_no_consecutive_breaks (b : SectionBuilder)
    (hstart : b.start_on_new_page = true)
    (hin : noConsecPageBreaks b.blocks = true) :
    noConsecPageBreaks b.build.blocks = true := by
  unfold SectionBuilder.build
  rw [hstart]
  simp only [if_true]
  cases hb : b.blocks with
  | nil => simp [noConsecPageBreaks]
  | cons c t =>
    cases c with
    | PageBreak => simpa [hb] using hin
    | Paragraph p =>
      simp only [List.head?]
      rw [hb] at hin
      simpa [noConsecPageBreaks, Block.isPageBreak] using hin
    | Image i =>
      simp only [List.head?]
      rw [hb] at hin
      simpa [noConsecPageBreaks, Block.isPageBreak] using hin

/-- C6 (witness): concrete run of the amended theorem. -/
theorem sectionBuilder_build_no_consecutive_breaks_witness :
    noConsecPageBreaks
      (SectionBuilder.build ⟨none, "Intro", [], true⟩).blocks = true :=
  sectionBuilder_build_no_consecutive_breaks ⟨none, "Intro", [], true⟩ rfl rfl

/-! ### C2 : first-write-wins page tracking -/

/-- A slot that already holds a recorded page survives any further events
of the same pass: page turns only touch the current-page counter, and
`mark_section` never overwrites a non-empty slot. -/
theorem runPass_slot_preserved (es : List RenderEvent) (s : PassState)
    (i v : Nat) (h : s.tracker.section_pages[i]? = some (some v)) :
    (runPass s es).tracker.section_pages[i]? = some (some v) := by
  induction es generalizing s with
  | nil => exact h
  | cons e es ih =>
    apply ih
    cases e with
    | pageTurn => exact h
    | markSection j =>
      show (s.tracker.mark_section j).section_pages[i]? = some (some v)
      unfold PageTracker.mark_section
      rcases hj : s.tracker.section_pages.get? j with _ | vj
      · exact h
      · cases vj with
        | none =>
          simp only
          rcases eq_or_ne j i with rfl | hne
          · rw [List.get?_eq_getElem?, h] at hj
            cases hj
          · rw [List.getElem?_set_ne hne]
            exact h
        | some w => exact h

/-- C2 (confirmed): within a single pass, the first firing of section `i`'s
marker while its slot is still unset records the then-current page counter,
and no later marker firing or page turn of the same pass overwrites it. -/
theorem mark_section_first_write_wins (s : PassState)
    (es1 es2 : List RenderEvent) (i : Nat)
    (hslot : (runPass s es1).tracker.section_pages[i]? = some none) :
    (runPass s (es1 ++ RenderEvent.markSection i :: es2)).tracker.section_pages[i]? =
      some (some (runPass s es1).tracker.current_page) := by
  rw [runPass, List.foldl_append]
  have hstep :
      (stepEvent (runPass s es1) (RenderEvent.markSection i)).tracker.section_pages[i]? =
        some (some (runPass s es1).tracker.current_page) := by
    show ((runPass s es1).tracker.mark_section i).section_pages[i]? = _
    unfold PageTracker.mark_section
    rw [List.get?_eq_getElem?, hslot]
    simp only
    have hlt : i < (runPass s es1).tracker.section_pages.length :=
      List.getElem?_eq_some_iff.mp hslot |>.fst
    rw [List.getElem?_set_self hlt]
  exact runPass_slot_preserved es2 _ i _ hstep

/-- C2 (witness): concrete run — page 1 is turned, the marker for section 0
fires, then another page turn and a repeated firing leave the recorded page
at 1. -/
theorem mark_section_first_write_wins_witness :
    (runPass (initialPass 2)
        ([RenderEvent.pageTurn] ++ RenderEvent.markSection 0 ::
          [RenderEvent.pageTurn, RenderEvent.markSection 0])).tracker.section_pages[0]? =
      some (some 1) :=
  mark_section_first_write_wins (initialPass 2) [RenderEvent.pageTurn]
    [RenderEvent.pageTurn, RenderEvent.markSection 0] 0 (by decide)

/-! ### C9 : one optional entry per section -/

/-- Events never change the number of slots. -/
theorem runPass_section_pages_length (es : List RenderEvent) (s : PassState) :
    (runPass s es).tracker.section_pages.length = s.tracker.section_pages.length := by
  induction es generalizing s with
  | nil => rfl
  | cons e es ih =>
    rw [runPass, List.foldl_cons, ← runPass, ih]
    cases e with
    | pageTurn => rfl
    | markSection j =>
      show (s.tracker.mark_section j).section_pages.length = _
      unfold PageTracker.mark_section
      rcases hj : s.tracker.section_pages.get? j with _ | vj
      · rfl
      · cases vj with
        | none => simp [List.length_set]
        | some w => rfl

/-- A slot that is unset stays unset across a pass that never fires the
corresponding marker. -/
theorem runPass_slot_stays_none (es : List RenderEvent) (s : PassState)
    (i : Nat) (h : s.tracker.section_pages[i]? = some none)
    (hno : ∀ e ∈ es, e ≠ RenderEvent.markSection i) :
    (runPass s es).tracker.section_pages[i]? = some none := by
  induction es generalizing s with
  | nil => exact h
  | cons e es ih =>
    refine ih _ ?_ fun e' he' => hno e' (List.mem_cons_of_mem _ he')
    cases e with
    | pageTurn => exact h
    | markSection j =>
      have hji : j ≠ i := by
        intro hji
        subst hji
        exact hno (RenderEvent.markSection j) (List.mem_cons_self _ _) rfl
      show (s.tracker.mark_section j).section_pages[i]? = some none
      unfold PageTracker.mark_section
      rcases hj : s.tracker.section_pages.get? j with _ | vj
      · exact h
      · cases vj with
        | none => simp only; rw [List.getElem?_set_ne hji]; exact h
        | some w => exact h

/-- C9 (confirmed): `render`'s `section_start_pages` has exactly one
optional entry per input section (in input order, slot `i` belonging to
section `i`), and it is `None` for every section whose marker never fired
during the final pass. -/
theorem render_section_start_pages_shape (b : PdfBuilder)
    (dE fE : List RenderEvent) :
    (b.render dE fE).section_start_pages.length = b.sections.length ∧
    ∀ i, i < b.sections.length →
      (∀ e ∈ fE, e ≠ RenderEvent.markSection i) →
      (b.render dE fE).section_start_pages[i]? = some none := by
  unfold PdfBuilder.render
  simp only
  constructor
  · split
    · rw [runPass_section_pages_length]
      simp [initialPass, PageTracker.new]
    · simp
  · intro i hi hno
    split
    · refine runPass_slot_stays_none fE _ i ?_ hno
      simp [initialPass, PageTracker.new, List.getElem?_replicate, hi]
    · simp [List.getElem?_replicate, hi]

/-- C9 (witness): a single-section builder whose final pass turns one page
and never fires the section marker reports exactly one entry, `None`. -/
theorem render_section_start_pages_shape_witness :
    ((PdfBuilder.mk false true [⟨none, "A", []⟩]).render []
        [RenderEvent.pageTurn]).section_start_pages.length = 1 ∧
    ((PdfBuilder.mk false true [⟨none, "A", []⟩]).render []
        [RenderEvent.pageTurn]).section_start_pages[0]? = some none := by
  have h := render_section_start_pages_shape
    (PdfBuilder.mk false true [⟨none, "A", []⟩]) [] [RenderEvent.pageTurn]
  exact ⟨h.1, h.2 0 (by decide) (by decide)⟩

/-! ### C1 : pass structure without a printed TOC -/

/-- C1 (counterexample): the claim "with no printed TOC requested only the
final pass runs" is false — requesting per-section page tracking makes
`need_tracking` true, so a discovery pass runs as well (two passes), even
though `include_toc` is false. -/
theorem render_single_pass_counterexample :
    (PdfBuilder.mk false true [⟨none, "A", []⟩]).include_toc = false ∧
    ((PdfBuilder.mk false true [⟨none, "A", []⟩]).render [] []).passes = 2 ∧
    ((PdfBuilder.mk false true [⟨none, "A", []⟩]).render [] []).passes ≠ 1 :=
  ⟨rfl, rfl, by decide⟩

/-- C1 (amended): when no printed TOC is requested, a single (final) pass
runs only if per-section tracking is not requested either; when tracking is
requested a discovery pass also runs (its recorded pages are discarded),
and the tracking returned as `section_start_pages` is the one recorded
during the final pass. -/
theorem render_single_pass_amended (b : PdfBuilder)
    (dE fE : List RenderEvent) (htoc : b.include_toc = false) :
    (b.collect_section_pages = false → (b.render dE fE).passes = 1) ∧
    (b.collect_section_pages = true →
      (b.render dE fE).passes = 2 ∧
      (b.render dE fE).section_start_pages =
        (if 0 < b.sections.length then
          (runPass (initialPass b.sections.length) fE).tracker.section_pages
        else List.replicate b.sections.length none)) := by
  constructor
  · intro hc
    unfold PdfBuilder.render
    simp [htoc, hc]
  · intro hc
    unfold PdfBuilder.render
    by_cases hn : 0 < b.sections.length
    · simp [htoc, hc, hn]
    · simp [htoc, hc, hn]

/-- C1 (witness): concrete run of the amended theorem — tracking without a
TOC gives two passes, and the final pass's recording (page 1 for
section 0) is returned. -/
theorem render_single_pass_amended_witness :
    ((PdfBuilder.mk false true [⟨none, "A", []⟩]).render []
        [RenderEvent.pageTurn, RenderEvent.markSection 0]).passes = 2 ∧
    ((PdfBuilder.mk false true [⟨none, "A", []⟩]).render []
        [RenderEvent.pageTurn, RenderEvent.markSection 0]).section_start_pages =
      [some 1] := by
  have h := (render_single_pass_amended (PdfBuilder.mk false true [⟨none, "A", []⟩])
    [] [RenderEvent.pageTurn, RenderEvent.markSection 0] rfl).2 rfl
  exact ⟨h.1, h.2.trans (by decide)⟩

/-! ### C4 : plain text parses to a single unstyled span -/

/-- On input with no markup characters every step of `parse_inner` takes
the plain-character branch, so the whole input accumulates into the buffer
and is flushed once at the end of input. -/
theorem parse_inner_plain (s : List Char) (h : ∀ c ∈ s, isMarkupChar c = false) :
    ∀ fuel idx state buffer spans, s.length + 1 ≤ fuel →
      parse_inner fuel s idx state none buffer spans =
        some (.ok (flush_buffer (buffer ++ s) spans state, idx + utf8Len s, [])) := by
  induction s with
  | nil =>
    intro fuel idx state buffer spans hf
    obtain ⟨f, rfl⟩ : ∃ f, fuel = f + 1 := ⟨fuel - 1, by omega⟩
    simp [parse_inner, utf8Len]
  | cons c t ih =>
    intro fuel idx state buffer spans hf
    obtain ⟨f, rfl⟩ : ∃ f, fuel = f + 1 := ⟨fuel - 1, by omega⟩
    have hc := h c (List.mem_cons_self c t)
    have ht : ∀ x ∈ t, isMarkupChar x = false :=
      fun x hx => h x (List.mem_cons_of_mem _ hx)
    simp only [isMarkupChar, Bool.or_eq_false_iff, decide_eq_false_iff_not] at hc
    obtain ⟨⟨⟨hstar, hlb⟩, hrb⟩, hbrace⟩ := hc
    have hns : ('*' == c) = false := by
      exact beq_eq_false_iff_ne.mpr fun hcc => hstar hcc.symm
    have hnl : ('[' == c) = false := by
      exact beq_eq_false_iff_ne.mpr fun hcc => hlb hcc.symm
    simp only [parse_inner]
    rw [dif_neg (by simp [closingFires])]
    rw [if_neg (by simp [List.isPrefixOf, hns])]
    rw [if_neg (by simp [List.isPrefixOf, hns])]
    rw [if_neg (by simp [colorOpen, List.isPrefixOf, hnl])]
    rw [if_neg hbrace, if_neg hrb, if_neg hlb]
    have hf' : t.length + 1 ≤ f := by
      simp only [List.length_cons] at hf
      omega
    rw [ih ht f (idx + c.utf8Size) state (buffer ++ [c]) spans hf']
    simp [utf8Len, List.append_assoc, Nat.add_assoc]

/-- C4 (counterexample): the empty string contains no markup tokens, yet
`parse_markup` returns zero spans, not one. -/
theorem parse_markup_empty_counterexample :
    parse_markup [] = .ok [] ∧ ([] : List Span).length ≠ 1 :=
  ⟨rfl, by decide⟩

/-- C4 (amended): every *non-empty* input containing no markup characters
parses to exactly one span whose text is the input and which has no styles
set (bold, italic, underline all false, no color). -/
theorem parse_markup_plain_amended (s : List Char) (hne : s ≠ [])
    (h : ∀ c ∈ s, isMarkupChar c = false) :
    parse_markup s = .ok [Span.new s] := by
  unfold parse_markup
  rw [parse_inner_plain s h (2 * s.length + 1) 0 StyleState.initial [] [] (by omega)]
  have : flush_buffer ([] ++ s) [] StyleState.initial = [Span.new s] := by
    simp [flush_buffer, List.isEmpty_iff, hne, StyleState.to_span, StyleState.initial,
      Span.new]
  rw [this]

/-- C4 (witness): concrete run of the amended theorem. -/
theorem parse_markup_plain_amended_witness :
    parse_markup "Hello world".data = .ok [Span.new "Hello world".data] :=
  parse_markup_plain_amended "Hello world".data (by decide) (by decide)

/-! ### C5 : invalid color directive error position -/

/-- C5 (counterexample): parsing `"[color=#12FG34]{x}"` does fail with the
"invalid RGB" error, but its byte index is 8 (the start of the six-digit
hex field), not 11, which is the offset of the first non-hex character
`G`. -/
theorem parse_color_error_counterexample :
    parse_markup "[color=#12FG34]\x7bx\x7d".data =
      .error ⟨8, "invalid RGB specification; use hexadecimal digits only"⟩ ∧
    "[color=#12FG34]\x7bx\x7d".data[11]? = some 'G' ∧ (8 : Nat) ≠ 11 :=
  ⟨rfl, rfl, by decide⟩

/-- C5 (amended): parsing `"[color=#12FG34]{x}"` fails with a `ParseError`
whose message reports an invalid color and whose byte index is the offset
of the first character of the six-digit hex value (the one right after the
`#`), not of the first non-hex character. -/
theorem parse_color_error_amended :
    parse_markup "[color=#12FG34]\x7bx\x7d".data =
      .error ⟨8, "invalid RGB specification; use hexadecimal digits only"⟩ ∧
    "[color=#12FG34]\x7bx\x7d".data[7]? = some '#' ∧
    "[color=#12FG34]\x7bx\x7d".data[8]? = some '1' :=
  ⟨rfl, rfl, rfl⟩

/-! ### C3 : what concatenated span texts reproduce -/

theorem concatTexts_nil : concatTexts [] = [] := rfl

theorem concatTexts_cons (s : Span) (rest : List Span) :
    concatTexts (s :: rest) = s.text ++ concatTexts rest := rfl

theorem concatTexts_foldr (a : List Span) (init : List Char) :
    a.foldr (fun s acc => s.text ++ acc) init = concatTexts a ++ init := by
  induction a with
  | nil => simp [concatTexts]
  | cons s a ih => simp [concatTexts_cons, List.foldr_cons, ih, List.append_assoc]

theorem concatTexts_append (a b : List Span) :
    concatTexts (a ++ b) = concatTexts a ++ concatTexts b := by
  unfold concatTexts
  rw [List.foldr_append, concatTexts_foldr]
  rfl

theorem concatTexts_flush (buffer : List Char) (spans : List Span)
    (state : StyleState) :
    concatTexts (flush_buffer buffer spans state) = concatTexts spans ++ buffer := by
  unfold flush_buffer
  split
  case isTrue h => rw [List.isEmpty_iff.mp h]; simp
  case isFalse h =>
    rw [concatTexts_append]
    simp [concatTexts, StyleState.to_span]

set_option maxHeartbeats 1600000 in
theorem stripMarkup_cons_plain (c : Char) (t : List Char)
    (h1 : c ≠ '*') (h2 : c ≠ '}') (h3 : c ≠ '[') :
    stripMarkup (c :: t) = c :: stripMarkup t := by
  rw [stripMarkup.eq_def]
  split <;> simp_all

theorem strip_closing (m : Marker) (rest : List Char) :
    stripMarkup (m.closing_token ++ rest) = stripMarkup rest := by
  cases m <;> rfl

theorem isPrefixOf_eq_append {l1 l2 : List Char} (h : l1.isPrefixOf l2 = true) :
    l1 ++ l2.drop l1.length = l2 :=
  List.prefix_iff_eq_append.mp ( List.isPrefixOf_iff_prefix.mp h)

theorem strip_color_directive (rem : List Char) (idx idxA : Nat) (color : Color)
    (hopen : colorOpen.isPrefixOf rem = true)
    (hok : parse_color_directive rem idx = .ok (color, idxA)) :
    stripMarkup rem = stripMarkup (rem.drop 16) := by
  obtain ⟨u, hu⟩ : ∃ u, colorOpen ++ u = rem :=
    ⟨rem.drop 7, isPrefixOf_eq_append hopen⟩
  subst hu
  unfold parse_color_directive at hok
  rw [show (colorOpen ++ u).drop 7 = u from by simp [colorOpen]] at hok
  split at hok
  case h_2 => exact absurd hok (by simp)
  case h_3 => exact absurd hok (by simp)
  case h_1 =>
    rename_i d1 d2 d3 d4 d5 d6 v
    split at hok
    case isFalse => exact absurd hok (by simp)
    case isTrue hhex =>
      split at hok
      case h_2 => exact absurd hok (by simp)
      case h_3 => exact absurd hok (by simp)
      case h_1 =>
        rename_i w
        have hL : stripMarkup ('[' :: 'c' :: 'o' :: 'l' :: 'o' :: 'r' :: '=' :: '#' ::
            d1 :: d2 :: d3 :: d4 :: d5 :: d6 :: ']' :: '{' :: w) =
            (if isAsciiHexDigit d1 && isAsciiHexDigit d2 && isAsciiHexDigit d3 &&
                isAsciiHexDigit d4 && isAsciiHexDigit d5 && isAsciiHexDigit d6 then
              stripMarkup w
            else '[' :: stripMarkup ('c' :: 'o' :: 'l' :: 'o' :: 'r' :: '=' :: '#' ::
              d1 :: d2 :: d3 :: d4 :: d5 :: d6 :: ']' :: '{' :: w)) := rfl
        have hR : (colorOpen ++
            ('#' :: d1 :: d2 :: d3 :: d4 :: d5 :: d6 :: ']' :: '{' :: w)).drop 16 =
            w := rfl
        rw [hR]
        show stripMarkup ('[' :: 'c' :: 'o' :: 'l' :: 'o' :: 'r' :: '=' :: '#' ::
          d1 :: d2 :: d3 :: d4 :: d5 :: d6 :: ']' :: '{' :: w) = stripMarkup w
        rw [hL, if_pos hhex]

/-- Successful parses never grow the remaining input. -/
theorem parse_inner_rem_le (fuel : Nat) :
    ∀ rem idx state closing buffer spans sp idx2 rem2,
      parse_inner fuel rem idx state closing buffer spans =
        some (.ok (sp, idx2, rem2)) →
      rem2.length ≤ rem.length := by
  induction fuel with
  | zero =>
    intro rem idx state closing buffer spans sp idx2 rem2 h
    simp [parse_inner] at h
  | succ fuel ih =>
    intro rem idx state closing buffer spans sp idx2 rem2 h
    cases rem with
    | nil =>
      cases closing with
      | some m => simp [parse_inner] at h
      | none =>
        simp only [parse_inner, Option.some.injEq, Except.ok.injEq,
          Prod.mk.injEq] at h
        obtain ⟨-, -, rfl⟩ := h
        simp
    | cons c t =>
      simp only [parse_inner] at h
      by_cases hcf : closingFires closing (c :: t)
      · rw [dif_pos hcf] at h
        cases closing with
        | none => simp [closingFires] at hcf
        | some m =>
          simp only [Option.some.injEq, Except.ok.injEq, Prod.mk.injEq] at h
          obtain ⟨-, -, rfl⟩ := h
          simp [List.length_drop]
      · rw [dif_neg hcf] at h
        by_cases hb : (['*', '*'] : List Char).isPrefixOf (c :: t)
        · rw [if_pos hb] at h
          split at h
          · exact absurd h (by simp)
          · exact absurd h (by simp)
          · rename_i nested idx3 rem3 hin
            have h1 := ih _ _ _ _ _ _ _ _ _ hin
            have h2 := ih _ _ _ _ _ _ _ _ _ h
            rw [List.length_drop] at h1
            simp only [List.length_cons] at h1 ⊢
            omega
        · rw [if_neg hb] at h
          by_cases hi : (['*'] : List Char).isPrefixOf (c :: t)
          · rw [if_pos hi] at h
            split at h
            · exact absurd h (by simp)
            · exact absurd h (by simp)
            · rename_i nested idx3 rem3 hin
              have h1 := ih _ _ _ _ _ _ _ _ _ hin
              have h2 := ih _ _ _ _ _ _ _ _ _ h
              rw [List.length_drop] at h1
              simp only [List.length_cons] at h1 ⊢
              omega
          · rw [if_neg hi] at h
            by_cases hco : colorOpen.isPrefixOf (c :: t)
            · rw [if_pos hco] at h
              split at h
              · exact absurd h (by simp)
              · rename_i color idxAfter hdir
                split at h
                · exact absurd h (by simp)
                · exact absurd h (by simp)
                · rename_i nested idx3 rem3 hin
                  have h1 := ih _ _ _ _ _ _ _ _ _ hin
                  have h2 := ih _ _ _ _ _ _ _ _ _ h
                  rw [List.length_drop] at h1
                  simp only [List.length_cons] at h1 ⊢
                  omega
            · rw [if_neg hco] at h
              by_cases hc1 : c = '}'
              · rw [if_pos hc1] at h; simp at h
              · rw [if_neg hc1] at h
                by_cases hc2 : c = ']'
                · rw [if_pos hc2] at h; simp at h
                · rw [if_neg hc2] at h
                  by_cases hc3 : c = '['
                  · rw [if_pos hc3] at h; simp at h
                  · rw [if_neg hc3] at h
                    have h2 := ih _ _ _ _ _ _ _ _ _ h
                    simp only [List.length_cons]
                    omega

/-- A successful parse of a nested scope (a closing marker is expected)
always consumes at least the closing token, so the remaining input shrinks
strictly. -/
theorem parse_inner_rem_lt (fuel : Nat) :
    ∀ rem idx state m buffer spans sp idx2 rem2,
      parse_inner fuel rem idx state (some m) buffer spans =
        some (.ok (sp, idx2, rem2)) →
      rem2.length < rem.length := by
  induction fuel with
  | zero =>
    intro rem idx state m buffer spans sp idx2 rem2 h
    simp [parse_inner] at h
  | succ fuel ih =>
    intro rem idx state m buffer spans sp idx2 rem2 h
    cases rem with
    | nil => simp [parse_inner] at h
    | cons c t =>
      simp only [parse_inner] at h
      by_cases hcf : closingFires (some m) (c :: t)
      · rw [dif_pos hcf] at h
        simp only [Option.some.injEq, Except.ok.injEq, Prod.mk.injEq] at h
        obtain ⟨-, -, rfl⟩ := h
        have hk : 1 ≤ m.closing_token.length := by
          cases m <;> simp [Marker.closing_token]
        rw [List.length_drop]
        simp only [List.length_cons]
        omega
      · rw [dif_neg hcf] at h
        by_cases hb : (['*', '*'] : List Char).isPrefixOf (c :: t)
        · rw [if_pos hb] at h
          split at h
          · exact absurd h (by simp)
          · exact absurd h (by simp)
          · rename_i nested idx3 rem3 hin
            have h1 := parse_inner_rem_le fuel _ _ _ _ _ _ _ _ _ hin
            have h2 := ih _ _ _ _ _ _ _ _ _ h
            rw [List.length_drop] at h1
            simp only [List.length_cons] at h1 ⊢
            omega
        · rw [if_neg hb] at h
          by_cases hi : (['*'] : List Char).isPrefixOf (c :: t)
          · rw [if_pos hi] at h
            split at h
            · exact absurd h (by simp)
            · exact absurd h (by simp)
            · rename_i nested idx3 rem3 hin
              have h1 := parse_inner_rem_le fuel _ _ _ _ _ _ _ _ _ hin
              have h2 := ih _ _ _ _ _ _ _ _ _ h
              rw [List.length_drop] at h1
              simp only [List.length_cons] at h1 ⊢
              omega
          · rw [if_neg hi] at h
            by_cases hco : colorOpen.isPrefixOf (c :: t)
            · rw [if_pos hco] at h
              split at h
              · exact absurd h (by simp)
              · rename_i color idxAfter hdir
                split at h
                · exact absurd h (by simp)
                · exact absurd h (by simp)
                · rename_i nested idx3 rem3 hin
                  have h1 := parse_inner_rem_le fuel _ _ _ _ _ _ _ _ _ hin
                  have h2 := ih _ _ _ _ _ _ _ _ _ h
                  rw [List.length_drop] at h1
                  simp only [List.length_cons] at h1 ⊢
                  omega
            · rw [if_neg hco] at h
              by_cases hc1 : c = '}'
              · rw [if_pos hc1] at h; simp at h
              · rw [if_neg hc1] at h
                by_cases hc2 : c = ']'
                · rw [if_pos hc2] at h; simp at h
                · rw [if_neg hc2] at h
                  by_cases hc3 : c = '['
                  · rw [if_pos hc3] at h; simp at h
                  · rw [if_neg hc3] at h
                    have h2 := ih _ _ _ _ _ _ _ _ _ h
                    simp only [List.length_cons]
                    omega

/-- Fuel adequacy: `2 * rem.length + 1` recursion budget always suffices,
so the artificial out-of-fuel result is unreachable from `parse_markup`
and the embedding is total exactly like the Rust function. -/
theorem parse_inner_isSome (fuel : Nat) :
    ∀ rem idx state closing buffer spans,
      2 * rem.length + 1 ≤ fuel →
      parse_inner fuel rem idx state closing buffer spans ≠ none := by
  induction fuel with
  | zero =>
    intro rem idx state closing buffer spans hf
    exact absurd hf (by omega)
  | succ fuel ih =>
    intro rem idx state closing buffer spans hf hnone
    cases rem with
    | nil => cases closing <;> simp [parse_inner] at hnone
    | cons c t =>
      simp only [parse_inner] at hnone
      by_cases hcf : closingFires closing (c :: t)
      · rw [dif_pos hcf] at hnone
        cases closing with
        | none => simp [closingFires] at hcf
        | some m => simp at hnone
      · rw [dif_neg hcf] at hnone
        by_cases hb : (['*', '*'] : List Char).isPrefixOf (c :: t)
        · rw [if_pos hb] at hnone
          split at hnone
          · rename_i hin
            refine ih _ _ _ _ _ _ ?_ hin
            rw [List.length_drop]
            simp only [List.length_cons] at hf ⊢
            omega
          · simp at hnone
          · rename_i nested idx3 rem3 hin
            have hlt := parse_inner_rem_lt fuel _ _ _ _ _ _ _ _ _ hin
            rw [List.length_drop] at hlt
            refine ih _ _ _ _ _ _ ?_ hnone
            simp only [List.length_cons] at hf hlt ⊢
            omega
        · rw [if_neg hb] at hnone
          by_cases hi : (['*'] : List Char).isPrefixOf (c :: t)
          · rw [if_pos hi] at hnone
            split at hnone
            · rename_i hin
              refine ih _ _ _ _ _ _ ?_ hin
              rw [List.length_drop]
              simp only [List.length_cons] at hf ⊢
              omega
            · simp at hnone
            · rename_i nested idx3 rem3 hin
              have hlt := parse_inner_rem_lt fuel _ _ _ _ _ _ _ _ _ hin
              rw [List.length_drop] at hlt
              refine ih _ _ _ _ _ _ ?_ hnone
              simp only [List.length_cons] at hf hlt ⊢
              omega
          · rw [if_neg hi] at hnone
            by_cases hco : colorOpen.isPrefixOf (c :: t)
            · rw [if_pos hco] at hnone
              split at hnone
              · simp at hnone
              · rename_i color idxAfter hdir
                split at hnone
                · rename_i hin
                  refine ih _ _ _ _ _ _ ?_ hin
                  rw [List.length_drop]
                  simp only [List.length_cons] at hf ⊢
                  omega
                · simp at hnone
                · rename_i nested idx3 rem3 hin
                  have hlt := parse_inner_rem_lt fuel _ _ _ _ _ _ _ _ _ hin
                  rw [List.length_drop] at hlt
                  refine ih _ _ _ _ _ _ ?_ hnone
                  simp only [List.length_cons] at hf hlt ⊢
                  omega
            · rw [if_neg hco] at hnone
              by_cases hc1 : c = '}'
              · rw [if_pos hc1] at hnone; simp at hnone
              · rw [if_neg hc1] at hnone
                by_cases hc2 : c = ']'
                · rw [if_pos hc2] at hnone; simp at hnone
                · rw [if_neg hc2] at hnone
                  by_cases hc3 : c = '['
                  · rw [if_pos hc3] at hnone; simp at hnone
                  · rw [if_neg hc3] at hnone
                    refine ih _ _ _ _ _ _ ?_ hnone
                    simp only [List.length_cons] at hf ⊢
                    omega

/-- The central bookkeeping invariant of `parse_inner`: on success, the
concatenated texts of the produced spans, continued by the stripped
not-yet-consumed input, equal the accumulated spans' texts, the pending
buffer and the stripped remaining input — i.e. each step moves exactly the
plain-text characters into spans and drops exactly the markup delimiters.
Moreover a top-level call (no closing marker) consumes the whole input. -/
theorem parse_inner_invariant (fuel : Nat) :
    ∀ rem idx state closing buffer spans sp idx2 rem2,
      parse_inner fuel rem idx state closing buffer spans =
        some (.ok (sp, idx2, rem2)) →
      concatTexts sp ++ stripMarkup rem2 =
        concatTexts spans ++ buffer ++ stripMarkup rem ∧
      (closing = none → rem2 = []) := by
  induction fuel with
  | zero =>
    intro rem idx state closing buffer spans sp idx2 rem2 h
    simp [parse_inner] at h
  | succ fuel ih =>
    intro rem idx state closing buffer spans sp idx2 rem2 h
    cases rem with
    | nil =>
      cases closing with
      | some m => simp [parse_inner] at h
      | none =>
        simp only [parse_inner, Option.some.injEq, Except.ok.injEq,
          Prod.mk.injEq] at h
        obtain ⟨rfl, -, rfl⟩ := h
        refine ⟨?_, fun _ => rfl⟩
        rw [concatTexts_flush]
    | cons c t =>
      simp only [parse_inner] at h
      by_cases hcf : closingFires closing (c :: t)
      · rw [dif_pos hcf] at h
        cases closing with
        | none => simp [closingFires] at hcf
        | some m =>
          simp only [Option.some.injEq, Except.ok.injEq, Prod.mk.injEq] at h
          obtain ⟨rfl, -, rfl⟩ := h
          refine ⟨?_, fun hq => by cases hq⟩
          have hpre : m.closing_token.isPrefixOf (c :: t) = true := by
            simpa [closingFires] using hcf
          have hsplit : m.closing_token ++ (c :: t).drop m.closing_token.length =
              c :: t := isPrefixOf_eq_append hpre
          have hstrip : stripMarkup (c :: t) =
              stripMarkup ((c :: t).drop m.closing_token.length) := by
            conv_lhs => rw [← hsplit]
            exact strip_closing m _
          rw [concatTexts_flush, hstrip]
          try simp [List.append_assoc]
      · rw [dif_neg hcf] at h
        by_cases hb : (['*', '*'] : List Char).isPrefixOf (c :: t)
        · rw [if_pos hb] at h
          split at h
          · exact absurd h (by simp)
          · exact absurd h (by simp)
          · rename_i nested idx3 rem3 hin
            have H1 := (ih _ _ _ _ _ _ _ _ _ hin).1
            have H2 := ih _ _ _ _ _ _ _ _ _ h
            refine ⟨?_, H2.2⟩
            have hsplit : (['*', '*'] : List Char) ++ (c :: t).drop 2 = c :: t :=
              isPrefixOf_eq_append hb
            have hstrip : stripMarkup (c :: t) = stripMarkup ((c :: t).drop 2) := by
              conv_lhs => rw [← hsplit]
              exact strip_closing .Bold _
            have H1' : concatTexts nested ++ stripMarkup rem3 =
                stripMarkup ((c :: t).drop 2) := by
              simpa [concatTexts_nil] using H1
            have H2' := H2.1
            rw [concatTexts_append, concatTexts_flush] at H2'
            simp only [List.append_nil] at H2'
            rw [H2', hstrip, ← H1']
            try simp [List.append_assoc]
        · rw [if_neg hb] at h
          by_cases hi : (['*'] : List Char).isPrefixOf (c :: t)
          · rw [if_pos hi] at h
            split at h
            · exact absurd h (by simp)
            · exact absurd h (by simp)
            · rename_i nested idx3 rem3 hin
              have H1 := (ih _ _ _ _ _ _ _ _ _ hin).1
              have H2 := ih _ _ _ _ _ _ _ _ _ h
              refine ⟨?_, H2.2⟩
              have hsplit : (['*'] : List Char) ++ (c :: t).drop 1 = c :: t :=
                isPrefixOf_eq_append hi
              have hstrip : stripMarkup (c :: t) = stripMarkup ((c :: t).drop 1) := by
                conv_lhs => rw [← hsplit]
                exact strip_closing .Italic _
              have H1' : concatTexts nested ++ stripMarkup rem3 =
                  stripMarkup ((c :: t).drop 1) := by
                simpa [concatTexts_nil] using H1
              have H2' := H2.1
              rw [concatTexts_append, concatTexts_flush] at H2'
              simp only [List.append_nil] at H2'
              rw [H2', hstrip, ← H1']
              try simp [List.append_assoc]
          · rw [if_neg hi] at h
            by_cases hco : colorOpen.isPrefixOf (c :: t)
            · rw [if_pos hco] at h
              split at h
              · exact absurd h (by simp)
              · rename_i color idxAfter hdir
                split at h
                · exact absurd h (by simp)
                · exact absurd h (by simp)
                · rename_i nested idx3 rem3 hin
                  have H1 := (ih _ _ _ _ _ _ _ _ _ hin).1
                  have H2 := ih _ _ _ _ _ _ _ _ _ h
                  refine ⟨?_, H2.2⟩
                  have hstrip := strip_color_directive (c :: t) idx idxAfter
                    color hco hdir
                  have H1' : concatTexts nested ++ stripMarkup rem3 =
                      stripMarkup ((c :: t).drop 16) := by
                    simpa [concatTexts_nil] using H1
                  have H2' := H2.1
                  rw [concatTexts_append, concatTexts_flush] at H2'
                  simp only [List.append_nil] at H2'
                  rw [H2', hstrip, ← H1']
                  try simp [List.append_assoc]
            · rw [if_neg hco] at h
              by_cases hc1 : c = '}'
              · rw [if_pos hc1] at h; simp at h
              · rw [if_neg hc1] at h
                by_cases hc2 : c = ']'
                · rw [if_pos hc2] at h; simp at h
                · rw [if_neg hc2] at h
                  by_cases hc3 : c = '['
                  · rw [if_pos hc3] at h; simp at h
                  · rw [if_neg hc3] at h
                    have H := ih _ _ _ _ _ _ _ _ _ h
                    refine ⟨?_, H.2⟩
                    have hcs : c ≠ '*' := by
                      intro hcc
                      subst hcc
                      simp [List.isPrefixOf] at hi
                    rw [stripMarkup_cons_plain c t hcs hc1 hc3, H.1]
                    simp [List.append_assoc]

/-- C3 (counterexample): the claim that concatenating the `text()` of the
returned spans reproduces the input exactly is false — the markup
delimiters are consumed, so `"**a**"` parses successfully but its spans
concatenate to `"a"`. -/
theorem parse_markup_concat_counterexample :
    parse_markup "**a**".data =
      .ok [⟨['a'], true, false, none, false⟩] ∧
    concatTexts [(⟨['a'], true, false, none, false⟩ : Span)] ≠ "**a**".data :=
  ⟨rfl, by decide⟩

/-- C3 (amended): for every input on which `parse_markup` succeeds,
concatenating the `text()` of every returned span, in order, reproduces
the input with the markup delimiters removed (every `*`, every
scope-closing `}` and every well-formed `[color=#RRGGBB]{` opener), i.e.
exactly the plain-text characters of the input in their original order. -/
theorem parse_markup_strips_markup (input : List Char) (spans : List Span)
    (h : parse_markup input = .ok spans) :
    concatTexts spans = stripMarkup input := by
  unfold parse_markup at h
  rcases hp : parse_inner (2 * input.length + 1) input 0 StyleState.initial
      none [] [] with _ | r
  · rw [hp] at h; simp at h
  · rw [hp] at h
    cases r with
    | error e => simp at h
    | ok v =>
      obtain ⟨sp, idx2, rem2⟩ := v
      simp only [Except.ok.injEq] at h
      subst h
      have H := parse_inner_invariant _ _ _ _ _ _ _ _ _ _ hp
      have hrem : rem2 = [] := H.2 rfl
      have h1 := H.1
      rw [hrem] at h1
      simpa [concatTexts_nil, show stripMarkup [] = ([] : List Char) from rfl]
        using h1

/-- C3 (witness): concrete run of the amended theorem on `"*i*"`. -/
theorem parse_markup_strips_markup_witness :
    concatTexts [(⟨['i'], false, true, none, false⟩ : Span)] =
      stripMarkup "*i*".data :=
  parse_markup_strips_markup "*i*".data
    [⟨['i'], false, true, none, false⟩] rfl

/-! ### C7 : missing page aborts bookmark application -/

/-- Lookup after a replace-or-append insert. -/
theorem objGet_objInsert (objs : List (ObjectId × Object)) (id : ObjectId)
    (v : Object) (id' : ObjectId) :
    objGet (objInsert objs id v) id' =
      if id' = id then some v else objGet objs id' := by
  induction objs with
  | nil =>
    by_cases h : id' = id
    · subst h; simp [objInsert, objGet]
    · simp [objInsert, objGet, h, Ne.symm h]
  | cons p rest ih =>
    by_cases hp : p.1 = id
    · rw [show objInsert (p :: rest) id v = (id, v) :: rest from by
        simp [objInsert, hp]]
      by_cases h : id' = id
      · subst h; simp [objGet]
      · simp [objGet, hp, h, Ne.symm h]
    · rw [show objInsert (p :: rest) id v = p :: objInsert rest id v from by
        simp [objInsert, hp]]
      by_cases hq : p.1 = id'
      · have : id' ≠ id := fun hh => hp (hq.trans hh)
        simp [objGet, hq, this]
      · simp [objGet, hq, ih]

/-- Lookup after a replace-or-append dictionary set. -/
theorem dictGet_dictSet (d : List (String × Object)) (k : String)
    (v : Object) (k' : String) :
    dictGet (dictSet d k v) k' =
      if k' = k then some v else dictGet d k' := by
  induction d with
  | nil =>
    by_cases h : k' = k
    · subst h; simp [dictSet, dictGet]
    · simp [dictSet, dictGet, h, Ne.symm h]
  | cons p rest ih =>
    by_cases hp : p.1 = k
    · rw [show dictSet (p :: rest) k v = (k, v) :: rest from by
        simp [dictSet, hp]]
      by_cases h : k' = k
      · subst h; simp [dictGet]
      · simp [dictGet, hp, h, Ne.symm h]
    · rw [show dictSet (p :: rest) k v = p :: dictSet rest k v from by
        simp [dictSet, hp]]
      by_cases hq : p.1 = k'
      · have : k' ≠ k := fun hh => hp (hq.trans hh)
        simp [dictGet, hq, this]
      · simp [dictGet, hq, ih]

/-- The first section (in order) whose recorded page cannot be resolved
aborts `collectLoop` with `MissingPage` carrying that section's position
and the unresolved page number. -/
theorem collectLoop_missing (pairs : List (Section × Option Nat)) :
    ∀ (doc : Document) (index i : Nat) (sec : Section) (p : Nat),
      pairs[i]? = some (sec, some p) →
      pageLookup doc.pages (p % 4294967296) = none →
      (∀ j sj q, j < i → pairs[j]? = some (sj, some q) →
        pageLookup doc.pages (q % 4294967296) ≠ none) →
      collectLoop doc index pairs = .error (.MissingPage (index + i) p) := by
  induction pairs with
  | nil =>
    intro doc index i sec p hi
    simp at hi
  | cons pr rest ih =>
    intro doc index i sec p hi hmiss hmin
    obtain ⟨s0, op⟩ := pr
    cases i with
    | zero =>
      rw [List.getElem?_cons_zero, Option.some.injEq] at hi
      injection hi with h1 h2
      subst h2
      simp only [collectLoop]
      rw [hmiss]
      simp
    | succ i' =>
      rw [List.getElem?_cons_succ] at hi
      cases op with
      | none =>
        have hmin' : ∀ j sj q, j < i' → rest[j]? = some (sj, some q) →
            pageLookup doc.pages (q % 4294967296) ≠ none := by
          intro j sj q hj hg
          exact hmin (j + 1) sj q (by omega) (by rw [List.getElem?_cons_succ]; exact hg)
        have hrec := ih doc (index + 1) i' sec p hi hmiss hmin'
        rw [show index + 1 + i' = index + (i' + 1) from by omega] at hrec
        simp only [collectLoop]
        rw [hrec]
      | some q =>
        have hq : pageLookup doc.pages (q % 4294967296) ≠ none :=
          hmin 0 s0 q (by omega) (by rw [List.getElem?_cons_zero])
        obtain ⟨r, hr⟩ : ∃ r, pageLookup doc.pages (q % 4294967296) = some r := by
          rcases hh : pageLookup doc.pages (q % 4294967296) with _ | r
          · exact absurd hh hq
          · exact ⟨r, rfl⟩
        have hmin' : ∀ j sj qq, j < i' → rest[j]? = some (sj, some qq) →
            pageLookup doc.pages (qq % 4294967296) ≠ none := by
          intro j sj qq hj hg
          exact hmin (j + 1) sj qq (by omega) (by rw [List.getElem?_cons_succ]; exact hg)
        have hrec := ih { doc with max_id := doc.max_id + 1 } (index + 1) i' sec p
          hi hmiss hmin'
        rw [show index + 1 + i' = index + (i' + 1) from by omega] at hrec
        simp only [collectLoop]
        rw [hr]
        simp only [newObjectId]
        rw [hrec]

/-- C7 (confirmed): if some section's recorded start page has no page
object in the artifact's page map (and it is the first such section in
order), `apply_section_bookmarks` fails with `MissingPage` carrying that
section's index and the missing page number.  Because the result is an
error, no re-serialized graph is produced — the caller keeps the original
artifact bytes (the loaded object graph is a local copy, so the input
bytes are never mutated). -/
theorem apply_bookmarks_missing_page (doc : Document) (sections : List Section)
    (pages : List (Option Nat)) (i : Nat) (sec : Section) (p : Nat)
    (hi : (sections.zip pages)[i]? = some (sec, some p))
    (hmiss : pageLookup doc.pages (p % 4294967296) = none)
    (hmin : ∀ j sj q, j < i → (sections.zip pages)[j]? = some (sj, some q) →
      pageLookup doc.pages (q % 4294967296) ≠ none) :
    apply_section_bookmarks doc sections pages = .error (.MissingPage i p) := by
  unfold apply_section_bookmarks collect_outline_entries
  rw [collectLoop_missing (sections.zip pages) doc 0 i sec p hi hmiss hmin]
  simp

/-- C7 (witness): a two-section document whose second section records page
3 while the artifact only has page 1 fails with `MissingPage 1 3`. -/
theorem apply_bookmarks_missing_page_witness :
    apply_section_bookmarks ⟨0, [], [], [(1, (5, 0))]⟩
      [⟨none, "A", []⟩, ⟨none, "B", []⟩] [some 1, some 3] =
      .error (.MissingPage 1 3) := by
  refine apply_bookmarks_missing_page _ _ _ 1 ⟨none, "B", []⟩ 3 rfl rfl ?_
  intro j sj q hj hg
  have hj0 : j = 0 := by omega
  subst hj0
  rw [show (([⟨none, "A", []⟩, ⟨none, "B", []⟩] :
      List Section).zip [some 1, some 3])[0]? =
    some ((⟨none, "A", []⟩ : Section), some 1) from rfl, Option.some.injEq] at hg
  injection hg with h1 h2
  injection h2 with h3
  subst h3
  decide

/-! ### C10 : strict positional pairing over the common prefix -/

theorem zip_append_left {α β : Type} (l1 l2 : List α) (m : List β)
    (h : l1.length = m.length) : (l1 ++ l2).zip m = l1.zip m := by
  induction l1 generalizing m with
  | nil =>
    have : m = [] := by
      cases m with
      | nil => rfl
      | cons b bs => simp at h
    subst this
    simp
  | cons a as ih =>
    cases m with
    | nil => simp at h
    | cons b bs =>
      simp only [List.cons_append, List.zip_cons_cons]
      rw [ih bs (by simpa using h)]

theorem zip_append_right {α β : Type} (l : List α) (m1 m2 : List β)
    (h : l.length = m1.length) : l.zip (m1 ++ m2) = l.zip m1 := by
  induction l generalizing m1 with
  | nil => simp
  | cons a as ih =>
    cases m1 with
    | nil => simp at h
    | cons b bs =>
      simp only [List.cons_append, List.zip_cons_cons]
      rw [ih bs (by simpa using h)]

/-- C10 (confirmed): `apply_section_bookmarks` pairs sections with recorded
pages strictly by position and processes only the common prefix: sections
beyond the page list get no bookmark and raise no error, and page entries
beyond the section list are ignored. -/
theorem apply_bookmarks_positional (doc : Document) (s1 s2 : List Section)
    (p1 p2 : List (Option Nat)) (h : s1.length = p1.length) :
    apply_section_bookmarks doc (s1 ++ s2) p1 =
      apply_section_bookmarks doc s1 p1 ∧
    apply_section_bookmarks doc s1 (p1 ++ p2) =
      apply_section_bookmarks doc s1 p1 := by
  unfold apply_section_bookmarks collect_outline_entries
  rw [zip_append_left s1 s2 p1 h, zip_append_right s1 p1 p2 h]
  exact ⟨rfl, rfl⟩

/-- C10 (witness): concrete run — an extra trailing section (without a page
entry) and an extra trailing page entry (without a section) both leave the
result unchanged. -/
theorem apply_bookmarks_positional_witness :
    apply_section_bookmarks ⟨0, [], [], []⟩
        ([⟨none, "A", []⟩] ++ [⟨none, "B", []⟩]) [none] =
      apply_section_bookmarks ⟨0, [], [], []⟩ [⟨none, "A", []⟩] [none] ∧
    apply_section_bookmarks ⟨0, [], [], []⟩ [⟨none, "A", []⟩]
        ([none] ++ [some 2]) =
      apply_section_bookmarks ⟨0, [], [], []⟩ [⟨none, "A", []⟩] [none] :=
  apply_bookmarks_positional ⟨0, [], [], []⟩ [⟨none, "A", []⟩]
    [⟨none, "B", []⟩] [none] [some 2] rfl

/-! ### C8 : the outline is a flat doubly linked list -/

theorem mkEntryDict_parent (oid : ObjectId) (prev next : Option ObjectId)
    (e : OutlineEntry) :
    dictGet (mkEntryDict oid prev next e) "Parent" = some (.Reference oid) := by
  unfold mkEntryDict
  cases e.name <;> cases prev <;> cases next <;>
    simp [dictGet_dictSet, dictGet]

theorem mkEntryDict_prev (oid : ObjectId) (prev next : Option ObjectId)
    (e : OutlineEntry) :
    dictGet (mkEntryDict oid prev next e) "Prev" = prev.map Object.Reference := by
  unfold mkEntryDict
  cases e.name <;> cases prev <;> cases next <;>
    simp [dictGet_dictSet, dictGet]

theorem mkEntryDict_next (oid : ObjectId) (prev next : Option ObjectId)
    (e : OutlineEntry) :
    dictGet (mkEntryDict oid prev next e) "Next" = next.map Object.Reference := by
  unfold mkEntryDict
  cases e.name <;> cases prev <;> cases next <;>
    simp [dictGet_dictSet, dictGet]

theorem linkLoop_trailer (oid : ObjectId) (entries : List OutlineEntry) :
    ∀ (prev : Option ObjectId) (doc : Document),
      (linkLoop oid prev doc entries).trailer = doc.trailer := by
  induction entries with
  | nil => intro prev doc; rfl
  | cons e rest ih =>
    intro prev doc
    cases rest with
    | nil => rfl
    | cons e2 rest2 => exact ih (some e.object_id) _

theorem linkLoop_objGet_other (oid : ObjectId) (entries : List OutlineEntry) :
    ∀ (prev : Option ObjectId) (doc : Document) (id : ObjectId),
      id ∉ entries.map OutlineEntry.object_id →
      objGet (linkLoop oid prev doc entries).objects id = objGet doc.objects id := by
  induction entries with
  | nil => intro prev doc id _; rfl
  | cons e rest ih =>
    intro prev doc id hid
    have hne : id ≠ e.object_id := by
      intro hh
      exact hid (by simp [hh])
    have hrest : id ∉ rest.map OutlineEntry.object_id := by
      intro hh
      exact hid (by simp [hh])
    cases rest with
    | nil =>
      show objGet (objInsert doc.objects e.object_id _) id = _
      rw [objGet_objInsert, if_neg hne]
    | cons e2 rest2 =>
      have hstep : linkLoop oid prev doc (e :: e2 :: rest2) =
          linkLoop oid (some e.object_id)
            (Document.mk doc.max_id
              (objInsert doc.objects e.object_id
                (.Dictionary (mkEntryDict oid prev (some e2.object_id) e)))
              doc.trailer doc.pages)
            (e2 :: rest2) := rfl
      rw [hstep, ih (some e.object_id) _ id hrest]
      show objGet (objInsert doc.objects e.object_id _) id = _
      rw [objGet_objInsert, if_neg hne]

theorem linkLoop_objGet (oid : ObjectId) (entries : List OutlineEntry) :
    ∀ (prev : Option ObjectId) (doc : Document) (i : Nat) (e : OutlineEntry),
      (entries.map OutlineEntry.object_id).Nodup →
      entries[i]? = some e →
      objGet (linkLoop oid prev doc entries).objects e.object_id =
        some (.Dictionary (mkEntryDict oid
          (if i = 0 then prev else (entries[i - 1]?).map OutlineEntry.object_id)
          ((entries[i + 1]?).map OutlineEntry.object_id) e)) := by
  induction entries with
  | nil =>
    intro prev doc i e _ hi
    simp at hi
  | cons e0 rest ih =>
    intro prev doc i e hnd hi
    rw [List.map_cons, List.nodup_cons] at hnd
    obtain ⟨h0, hndr⟩ := hnd
    cases rest with
    | nil =>
      cases i with
      | zero =>
        rw [List.getElem?_cons_zero, Option.some.injEq] at hi
        subst hi
        show objGet (objInsert doc.objects e0.object_id
          (.Dictionary (mkEntryDict oid prev none e0))) e0.object_id = _
        rw [objGet_objInsert, if_pos rfl]
        simp
      | succ i' =>
        rw [List.getElem?_cons_succ] at hi
        simp at hi
    | cons e1 rest2 =>
      have hstep : linkLoop oid prev doc (e0 :: e1 :: rest2) =
          linkLoop oid (some e0.object_id)
            (Document.mk doc.max_id
              (objInsert doc.objects e0.object_id
                (.Dictionary (mkEntryDict oid prev (some e1.object_id) e0)))
              doc.trailer doc.pages)
            (e1 :: rest2) := rfl
      rw [hstep]
      cases i with
      | zero =>
        rw [List.getElem?_cons_zero, Option.some.injEq] at hi
        subst hi
        rw [linkLoop_objGet_other oid (e1 :: rest2) (some e0.object_id) _
          e0.object_id h0]
        show objGet (objInsert doc.objects e0.object_id _) e0.object_id = _
        rw [objGet_objInsert, if_pos rfl]
        simp
      | succ i' =>
        rw [List.getElem?_cons_succ] at hi
        rw [ih (some e0.object_id) _ i' e hndr hi]
        cases i' with
        | zero => simp
        | succ i'' => simp [List.getElem?_cons_succ]

/-- C8 (confirmed): with at least one resolvable entry (and the freshness
facts that hold for ids produced by `new_object_id`), the outline objects
written by `link_outline_entries` and `insert_outlines_root` form a flat
doubly linked list in section order: each entry dictionary's `Parent` is
the outline root, `Prev`/`Next` reference the immediate neighbours (absent
at the ends), and the root carries `First`/`Last` references to the first
and last entries with `Count` equal to the number of entries. -/
theorem outline_flat_linked_list (doc : Document) (outlines_id : ObjectId)
    (entries : List OutlineEntry) (catalog_id : ObjectId)
    (catalog : List (String × Object))
    (hne : entries ≠ [])
    (hnodup : (entries.map OutlineEntry.object_id).Nodup)
    (hoid : outlines_id ∉ entries.map OutlineEntry.object_id)
    (hcatid : catalog_id ∉ entries.map OutlineEntry.object_id)
    (hco : catalog_id ≠ outlines_id)
    (hroot : dictGet doc.trailer "Root" = some (.Reference catalog_id))
    (hcat : objGet doc.objects catalog_id = some (.Dictionary catalog)) :
    ∃ doc4, insert_outlines_root outlines_id
        (link_outline_entries outlines_id doc entries) entries = .ok doc4 ∧
      (∀ i e, entries[i]? = some e →
        ∃ d, objGet doc4.objects e.object_id = some (.Dictionary d) ∧
          dictGet d "Parent" = some (.Reference outlines_id) ∧
          (i = 0 → dictGet d "Prev" = none) ∧
          (∀ ep, entries[i - 1]? = some ep → i ≠ 0 →
            dictGet d "Prev" = some (.Reference ep.object_id)) ∧
          (entries[i + 1]? = none → dictGet d "Next" = none) ∧
          (∀ en, entries[i + 1]? = some en →
            dictGet d "Next" = some (.Reference en.object_id))) ∧
      (∃ rd, objGet doc4.objects outlines_id = some (.Dictionary rd) ∧
        dictGet rd "Count" = some (.Integer entries.length) ∧
        (∀ e0, entries.head? = some e0 →
          dictGet rd "First" = some (.Reference e0.object_id)) ∧
        (∀ eL, entries.getLast? = some eL →
          dictGet rd "Last" = some (.Reference eL.object_id))) := by
  obtain ⟨e0, he0⟩ : ∃ e0, entries.head? = some e0 := by
    rcases hh : entries.head? with _ | e0
    · exact absurd (List.head?_eq_none_iff.mp hh) hne
    · exact ⟨e0, rfl⟩
  obtain ⟨eL, heL⟩ : ∃ eL, entries.getLast? = some eL := by
    rcases hh : entries.getLast? with _ | eL
    · exact absurd (List.getLast?_eq_none_iff.mp hh) hne
    · exact ⟨eL, rfl⟩
  have htr : (link_outline_entries outlines_id doc entries).trailer = doc.trailer :=
    linkLoop_trailer outlines_id entries none doc
  have hcat3 : objGet (link_outline_entries outlines_id doc entries).objects
      catalog_id = some (.Dictionary catalog) := by
    rw [link_outline_entries,
      linkLoop_objGet_other outlines_id entries none doc catalog_id hcatid]
    exact hcat
  have hrun : insert_outlines_root outlines_id
      (link_outline_entries outlines_id doc entries) entries =
      .ok ⟨(link_outline_entries outlines_id doc entries).max_id,
        objInsert
          (objInsert (link_outline_entries outlines_id doc entries).objects
            outlines_id
            (.Dictionary (dictSet (dictSet (dictSet (dictSet [] "Type"
              (.Name "Outlines")) "Count" (.Integer entries.length))
              "First" (.Reference e0.object_id))
              "Last" (.Reference eL.object_id))))
          catalog_id
          (.Dictionary (dictSet catalog "Outlines" (.Reference outlines_id))),
        (link_outline_entries outlines_id doc entries).trailer,
        (link_outline_entries outlines_id doc entries).pages⟩ := by
    simp only [insert_outlines_root, htr, hroot, hcat3, he0, heL]
  refine ⟨_, hrun, ?_, ?_⟩
  · intro i e hi
    have hmem : e.object_id ∈ entries.map OutlineEntry.object_id :=
      List.mem_map_of_mem _ (List.getElem?_mem hi)
    have hne1 : e.object_id ≠ catalog_id := fun hh => hcatid (hh ▸ hmem)
    have hne2 : e.object_id ≠ outlines_id := fun hh => hoid (hh ▸ hmem)
    have harg : objGet (link_outline_entries outlines_id doc entries).objects
        e.object_id = some (.Dictionary (mkEntryDict outlines_id
          (if i = 0 then none else (entries[i - 1]?).map OutlineEntry.object_id)
          ((entries[i + 1]?).map OutlineEntry.object_id) e)) :=
      linkLoop_objGet outlines_id entries none doc i e hnodup hi
    refine ⟨mkEntryDict outlines_id
      (if i = 0 then none else (entries[i - 1]?).map OutlineEntry.object_id)
      ((entries[i + 1]?).map OutlineEntry.object_id) e,
      ?_, mkEntryDict_parent _ _ _ _, ?_, ?_, ?_, ?_⟩
    · show objGet (objInsert (objInsert _ outlines_id _) catalog_id _)
        e.object_id = _
      rw [objGet_objInsert, if_neg hne1, objGet_objInsert, if_neg hne2]
      exact harg
    · intro h0
      rw [mkEntryDict_prev, if_pos h0]
      rfl
    · intro ep hep hne0
      rw [mkEntryDict_prev, if_neg hne0, hep]
      rfl
    · intro hnone
      rw [mkEntryDict_next, hnone]
      rfl
    · intro en hen
      rw [mkEntryDict_next, hen]
      rfl
  · refine ⟨dictSet (dictSet (dictSet (dictSet [] "Type" (.Name "Outlines"))
        "Count" (.Integer entries.length)) "First" (.Reference e0.object_id))
        "Last" (.Reference eL.object_id), ?_, ?_, ?_, ?_⟩
    · show objGet (objInsert (objInsert _ outlines_id _) catalog_id _)
        outlines_id = _
      rw [objGet_objInsert, if_neg (Ne.symm hco), objGet_objInsert, if_pos rfl]
    · simp [dictGet_dictSet]
    · intro e0' he0'
      rw [he0, Option.some.injEq] at he0'
      subst he0'
      simp [dictGet_dictSet]
    · intro eL' heL'
      rw [heL, Option.some.injEq] at heL'
      subst heL'
      simp [dictGet_dictSet]

/-- C8 (witness): concrete run of the flat-outline theorem on a document
with one catalog object and two outline entries. -/
theorem outline_flat_linked_list_witness :
    ∃ doc4, insert_outlines_root (4, 0)
        (link_outline_entries (4, 0)
          ⟨10, [((1, 0), Object.Dictionary [])],
            [("Root", Object.Reference (1, 0))], []⟩
          [⟨(2, 0), (7, 0), "A", none⟩, ⟨(3, 0), (8, 0), "B", some "b"⟩])
        [⟨(2, 0), (7, 0), "A", none⟩, ⟨(3, 0), (8, 0), "B", some "b"⟩] =
      .ok doc4 := by
  obtain ⟨doc4, h1, -, -⟩ := outline_flat_linked_list
    ⟨10, [((1, 0), Object.Dictionary [])], [("Root", Object.Reference (1, 0))], []⟩
    (4, 0) [⟨(2, 0), (7, 0), "A", none⟩, ⟨(3, 0), (8, 0), "B", some "b"⟩]
    (1, 0) [] (by decide) (by decide) (by decide) (by decide) (by decide) rfl rfl
  exact ⟨doc4, h1⟩

end PdfSpec
